import Mathlib

/-!
Verification development for the externs-to-declarations translator
(`build/typescript`): the definition extractor (`parseExterns.ts`), the
tree utilities (`treeUtils.ts`) and the declaration emitter.

The embedding mirrors the source: JavaScript `Map`s become association
lists (insertion-ordered), absent/`undefined` fields become `Option`,
runtime crashes (member access on `undefined`) and fatal assertions
become `Except` errors, and the recursive emitter carries a fuel
parameter to make the recursion structural; the source recursion is on
the finite node tree, so any sufficiently large fuel reproduces it.
-/

namespace ShakaDts

/-- Parsed type expressions (`doctrine.Type`) are produced by the
black-boxed comment parser and consumed only by the black-boxed type
renderer, so they are represented opaquely. -/
abbrev DoctrineType := String

/-- The union of the string values of the `AnnotationType` enum
(`typedef`, `const`, `property`, `class`, `enum`, `interface`,
`function`) and the `DefinitionType` enum (`function`, `object`,
`class`, `property`) from `base.ts`; both are string enums in the
source and their values are compared against each other by the
emitter's `attributes.type || definition.type` resolution. -/
inductive Kind where
  | Typedef
  | Const
  | Property
  | Class
  | Enum
  | Interface
  | Function
  | Object
  deriving Repr, DecidableEq

/-- One `{name, type, description}` property record pushed by the
`@property` tag handler of `parseBlockComment`. -/
structure PropInfo where
  name : String
  type : DoctrineType
  description : Option String := none
  deriving Repr, DecidableEq

/-- The `Attributes` record built by `parseBlockComment`: normalized
tag data from one structured comment.  Fields that the source leaves
`undefined` until a tag sets them are `Option`s. -/
structure Attributes where
  description : String := ""
  comments : List String := []
  type : Option Kind := none
  typedefType : Option DoctrineType := none
  constType : Option DoctrineType := none
  propType : Option DoctrineType := none
  enumType : Option DoctrineType := none
  returnType : Option DoctrineType := none
  props : Option (List PropInfo) := none
  paramTypes : Option (List (String × DoctrineType)) := none
  implements : Option DoctrineType := none
  «extends» : Option DoctrineType := none
  template : Option (List String) := none
  deriving Repr, DecidableEq

/-- A parsed `Definition`: one of the kind-specific record shapes
constructed by `parseExterns.ts` (`FunctionDefinition`,
`ObjectDefinition`, `ClassDefinition`, `PropertyDefinition`), with the
`attributes` record the extractor attaches from the leading comment. -/
inductive Definition where
  | Function (identifier : List String) (params : List String)
      (isMethod : Option Bool) (isStatic : Option Bool) (isConstructor : Option Bool)
      (definitions : Option (List Definition)) (attributes : Attributes)
  | Object (identifier : List String) (props : List String) (attributes : Attributes)
  | Class (identifier : List String) (superClass : Option (List String))
      (methods : List Definition) (attributes : Attributes)
  | Property (identifier : List String) (attributes : Attributes)

/-- `definition.type`: the structural kind discriminator. -/
def Definition.type : Definition → Kind
  | .Function _ _ _ _ _ _ _ => Kind.Function
  | .Object _ _ _ => Kind.Object
  | .Class _ _ _ _ => Kind.Class
  | .Property _ _ => Kind.Property

/-- `definition.attributes`. -/
def Definition.attributes : Definition → Attributes
  | .Function _ _ _ _ _ _ a => a
  | .Object _ _ a => a
  | .Class _ _ _ a => a
  | .Property _ a => a

/-- `definition.params`: present only on function definitions
(accessing it on any other definition yields `undefined` in the
source). -/
def Definition.params : Definition → Option (List String)
  | .Function _ ps _ _ _ _ _ => some ps
  | _ => none

/-- `definition.props`: present only on object definitions. -/
def Definition.props : Definition → Option (List String)
  | .Object _ ps _ => some ps
  | _ => none

/-- A `Node` of the declaration tree (`treeUtils.ts`): name, optional
owning definition, and an insertion-ordered children map. -/
inductive Node where
  | mk (name : String) (definition : Option Definition) (children : List (String × Node))

/-- `node.name`. -/
def Node.name : Node → String
  | .mk n _ _ => n

/-- `node.definition`. -/
def Node.definition : Node → Option Definition
  | .mk _ d _ => d

/-- `node.children`. -/
def Node.children : Node → List (String × Node)
  | .mk _ _ c => c

/-- `NodeMap`: a JavaScript `Map` from segment name to node, modelled
as an insertion-ordered association list. -/
abbrev NodeMap := List (String × Node)

/-! ## treeUtils.ts -/

/-- `getOrCreateNode`: return the node stored under `name`, creating
and inserting a fresh node (`{name, children: new Map()}`, no
definition) when absent.  The updated map is returned alongside the
node because the source mutates the map in place. -/
def getOrCreateNode (nodes : NodeMap) (name : String) : Node × NodeMap :=
  match List.lookup name nodes with
  | some node => (node, nodes)
  | none =>
    let node : Node := ⟨name, none, []⟩
    (node, nodes ++ [(name, node)])

/-- Replace the node stored under `name` (models the in-place mutation
of an existing entry's node that the source performs through object
aliasing). -/
def setNode (nodes : NodeMap) (name : String) (node : Node) : NodeMap :=
  nodes.map (fun p => if p.1 = name then (name, node) else p)

/-- `getOrCreateNodeAtPath`: walk `path`, get-or-creating one node per
segment, descending into each node's children; returns the terminal
node and the updated root.  `none` models the `assert(path.length > 0)`
failure on an empty path. -/
def getOrCreateNodeAtPath (root : NodeMap) : List String → Option (Node × NodeMap)
  | [] => none
  | [part] => some (getOrCreateNode root part)
  | part :: part' :: rest =>
    let (node, root') := getOrCreateNode root part
    match getOrCreateNodeAtPath node.children (part' :: rest) with
    | some (terminal, children') =>
        some (terminal, setNode root' part ⟨node.name, node.definition, children'⟩)
    | none => none

/-- `getNodeAtPath`: pure lookup along a path, `null` when any segment
is missing. -/
def getNodeAtPath (root : NodeMap) : List String → Option Node
  | [] => none
  | part :: rest =>
    match List.lookup part root with
    | none => none
    | some node => if rest.isEmpty then some node else getNodeAtPath node.children rest

/-! ## parseExterns.ts — the Comment Tag Interpreter -/

/-- Errors of the extractor: failed `assert(...)` calls are fatal
(thrown `AssertionError`s). -/
inductive ParseError where
  | assertFailed (msg : String)
  deriving Repr, DecidableEq

/-- One tag record of the AST produced by the black-boxed
`doctrine.parse`: tag title plus optional name, type expression and
description. -/
structure DocTag where
  title : String
  name : Option String := none
  type : Option DoctrineType := none
  description : Option String := none
  deriving Repr, DecidableEq

/-- The AST `doctrine.parse(comment.value, {unwrap: true})` returns:
the unwrapped leading description and the ordered tag sequence. -/
structure DocAst where
  description : String
  tags : List DocTag
  deriving Repr, DecidableEq

/-- `estree.Comment.type`. -/
inductive CommentKind where
  | Block
  | Line
  deriving Repr, DecidableEq

/-- A source comment.  The tag parser (`doctrine`) is black-boxed per
the specification, so the comment's text is represented directly by
its parsed form. -/
structure Comment where
  type : CommentKind
  value : DocAst
  deriving Repr, DecidableEq

/-- JavaScript truthiness of an optional string (`undefined` and the
empty string are falsy), used by the source's `assert(tag.name)` /
`if (tag.description)` checks on string-valued fields. -/
def truthy : Option String → Bool
  | none => false
  | some s => s ≠ ""

/-- `String.prototype.split(sep)` over a character list: splitting the
empty string yields one empty group, a trailing separator yields a
trailing empty group. -/
def splitChar (sep : Char) : List Char → List (List Char)
  | [] => [[]]
  | c :: rest =>
    let r := splitChar sep rest
    if c = sep then [] :: r
    else
      match r with
      | [] => [[c]]
      | g :: gs => (c :: g) :: gs

/-- Whitespace for `String.prototype.trim`. -/
def isWsChar (c : Char) : Bool :=
  c == ' ' || c == '\t' || c == '\n' || c == '\r' || c == '\x0b' || c == '\x0c'

/-- `String.prototype.trim`: strip whitespace from both ends. -/
def trimString (s : String) : String :=
  ⟨((s.data.dropWhile isWsChar).reverse.dropWhile isWsChar).reverse⟩

/-- `Array.prototype.join(sep)`. -/
def joinSep (sep : String) : List String → String
  | [] => ""
  | [s] => s
  | s :: rest => s ++ sep ++ joinSep sep rest

/-- `normalizeDescription`: split on newlines, trim each line, join
with single spaces. -/
def normalizeDescription (description : String) : String :=
  joinSep " " ((splitChar '\n' description.data).map (fun cs => trimString ⟨cs⟩))

/-- `attributes.paramTypes[name] = type`: JavaScript object-key
assignment, overwriting in place when the key exists and appending
otherwise. -/
def setParamType (m : List (String × DoctrineType)) (k : String) (v : DoctrineType) :
    List (String × DoctrineType) :=
  if (List.lookup k m).isSome then
    m.map (fun p => if p.1 = k then (k, v) else p)
  else
    m ++ [(k, v)]

/-- One iteration of the tag `switch` in `parseBlockComment`, folding
a tag into the accumulated `Attributes`.  `assert` failures are fatal
errors; unrecognized tags fall through unchanged. -/
def applyTag (attributes : Attributes) (tag : DocTag) : Except ParseError Attributes :=
  match tag.title with
  | "summary" =>
    match tag.description with
    | some d =>
      if d ≠ "" then .ok { attributes with description := normalizeDescription d }
      else .error (.assertFailed "summary description")
    | none => .error (.assertFailed "summary description")
  | "description" =>
    match tag.description with
    | some d =>
      if d ≠ "" then .ok { attributes with description := normalizeDescription d }
      else .error (.assertFailed "description description")
    | none => .error (.assertFailed "description description")
  | "typedef" =>
    match tag.type with
    | some _ => .ok { attributes with type := some Kind.Typedef, typedefType := tag.type }
    | none => .error (.assertFailed "typedef type")
  | "property" =>
    match tag.name, tag.type with
    | some n, some t =>
      if n ≠ "" then
        .ok { attributes with
              props := some ((attributes.props.getD []) ++
                [{ name := n, type := t,
                   description := match tag.description with
                     | some d => if d ≠ "" then some (normalizeDescription d) else none
                     | none => none }]) }
      else .error (.assertFailed "property name")
    | _, _ => .error (.assertFailed "property name or type")
  | "const" =>
    .ok { attributes with type := some Kind.Const, constType := tag.type }
  | "namespace" =>
    .ok { attributes with type := some Kind.Const, constType := none }
  | "define" =>
    let attributes := { attributes with type := some Kind.Const, constType := tag.type }
    .ok (match tag.description with
      | some d =>
        if d ≠ "" then { attributes with description := normalizeDescription d }
        else attributes
      | none => attributes)
  | "protected" =>
    .ok { attributes with type := some Kind.Property, propType := tag.type }
  | "type" =>
    .ok { attributes with type := some Kind.Property, propType := tag.type }
  | "constructor" =>
    .ok { attributes with type := some Kind.Class }
  | "enum" =>
    .ok { attributes with type := some Kind.Enum, enumType := tag.type }
  | "interface" =>
    .ok { attributes with type := some Kind.Interface }
  | "param" =>
    match tag.name, tag.type with
    | some n, some t =>
      if n ≠ "" then
        let attributes :=
          { attributes with paramTypes := some (setParamType (attributes.paramTypes.getD []) n t) }
        .ok (match tag.description with
          | some d =>
            if d ≠ "" then
              { attributes with
                comments := attributes.comments ++
                  ["@param " ++ n ++ " " ++ normalizeDescription d] }
            else attributes
          | none => attributes)
      else .error (.assertFailed "param name")
    | _, _ => .error (.assertFailed "param name or type")
  | "return" =>
    let attributes := { attributes with type := some Kind.Function, returnType := tag.type }
    .ok (match tag.description with
      | some d =>
        if d ≠ "" then
          { attributes with
            comments := attributes.comments ++ ["@returnType " ++ normalizeDescription d] }
        else attributes
      | none => attributes)
  | "implements" =>
    match tag.type with
    | some _ => .ok { attributes with implements := tag.type }
    | none => .error (.assertFailed "implements type")
  | "extends" =>
    match tag.type with
    | some _ => .ok { attributes with «extends» := tag.type }
    | none => .error (.assertFailed "extends type")
  | "template" =>
    match tag.description with
    | some d =>
      if d ≠ "" then
        .ok { attributes with
              template := some ((splitChar ',' d.data).map (fun cs => (⟨cs⟩ : String))) }
      else .error (.assertFailed "template description")
    | none => .error (.assertFailed "template description")
  | _ => .ok attributes

/-- `parseBlockComment`: assert the comment is a block comment, fold
its tags into an `Attributes` record, and finally prepend the
description (when non-empty) to the comments sequence. -/
def parseBlockComment (comment : Comment) : Except ParseError Attributes :=
  match comment.type with
  | .Line => .error (.assertFailed "Expected comment of type Block")
  | .Block =>
    let ast := comment.value
    let init : Attributes := { description := normalizeDescription ast.description, comments := [] }
    match ast.tags.foldlM applyTag init with
    | .error e => .error e
    | .ok attributes =>
      .ok (if attributes.description ≠ "" then
            { attributes with comments := attributes.description :: attributes.comments }
          else attributes)

/-- `parseLeadingComments`: with no attached comments return the empty
record; otherwise assert the list is non-empty and parse only the
comment closest to the statement (the last one). -/
def parseLeadingComments : Option (List Comment) → Except ParseError Attributes
  | none => .ok { comments := [], description := "" }
  | some comments =>
    match comments.getLast? with
    | some comment => parseBlockComment comment
    | none => .error (.assertFailed "Expected at least one leading comment, found none")

/-- The post-filter at the end of `parseBody`: discard `@const`
definitions without a const type unless the definition itself is a
class. -/
def parseBodyFilter (definitions : List Definition) : List Definition :=
  definitions.filter fun definition =>
    definition.type == Kind.Class ||
    definition.attributes.type != some Kind.Const ||
    definition.attributes.constType != none

/-! ## The Declaration Emitter (the writer classes and `write*Node`) -/

/-- Two spaces repeated `n` times: `'  '.repeat(n)`. -/
def twoSpaces : Nat → String
  | 0 => ""
  | n + 1 => "  " ++ twoSpaces n

/-- `AbstractWriter`'s indentation counter together with
`StringWriter`'s accumulated buffer.  The counter is an integer
because the source uses plain `++`/`--`. -/
structure Writer where
  level : Int
  buffer : String
  deriving Repr, DecidableEq

/-- `getIndentation()`: two spaces per current level. -/
def Writer.getIndentation (w : Writer) : String :=
  twoSpaces w.level.toNat

/-- `StringWriter.writeLine`: append indentation, the line and a
newline to the buffer. -/
def Writer.writeLine (w : Writer) (str : String) : Writer :=
  { w with buffer := w.buffer ++ (w.getIndentation ++ str ++ "\n") }

/-- `increaseLevel()`. -/
def Writer.increaseLevel (w : Writer) : Writer :=
  { w with level := w.level + 1 }

/-- `decreaseLevel()`. -/
def Writer.decreaseLevel (w : Writer) : Writer :=
  { w with level := w.level - 1 }

/-- `StreamWriter`: same indentation counter, but each `writeLine`
pushes one chunk to the output stream instead of appending to a
buffer. -/
structure StreamWriterState where
  level : Int
  chunks : List String
  deriving Repr, DecidableEq

/-- `StreamWriter.writeLine`. -/
def StreamWriterState.writeLine (w : StreamWriterState) (str : String) : StreamWriterState :=
  { w with chunks := w.chunks ++ [twoSpaces w.level.toNat ++ str ++ "\n"] }

/-- `StreamWriter.increaseLevel`. -/
def StreamWriterState.increaseLevel (w : StreamWriterState) : StreamWriterState :=
  { w with level := w.level + 1 }

/-- `StreamWriter.decreaseLevel`. -/
def StreamWriterState.decreaseLevel (w : StreamWriterState) : StreamWriterState :=
  { w with level := w.level - 1 }

/-- One call on a writer: the writers expose exactly `writeLine`,
`increaseLevel` and `decreaseLevel`. -/
inductive WriterOp where
  | writeLine (str : String)
  | increaseLevel
  | decreaseLevel
  deriving Repr, DecidableEq

/-- Run a sequence of calls against a `StringWriter`. -/
def runOps (w : Writer) : List WriterOp → Writer
  | [] => w
  | .writeLine s :: ops => runOps (w.writeLine s) ops
  | .increaseLevel :: ops => runOps w.increaseLevel ops
  | .decreaseLevel :: ops => runOps w.decreaseLevel ops

/-- Run a sequence of calls against a `StreamWriter`. -/
def runStreamOps (w : StreamWriterState) : List WriterOp → StreamWriterState
  | [] => w
  | .writeLine s :: ops => runStreamOps (w.writeLine s) ops
  | .increaseLevel :: ops => runStreamOps w.increaseLevel ops
  | .decreaseLevel :: ops => runStreamOps w.decreaseLevel ops

/-- The lines a call sequence emits, each rendered as
`indent ++ content ++ "\n"` with the indentation of the level current
when the line is written. -/
def traceLines (level : Int) : List WriterOp → List String
  | [] => []
  | .writeLine s :: ops => (twoSpaces level.toNat ++ s ++ "\n") :: traceLines level ops
  | .increaseLevel :: ops => traceLines (level + 1) ops
  | .decreaseLevel :: ops => traceLines (level - 1) ops

/-- Concatenation of a list of lines. -/
def joinLines : List String → String
  | [] => ""
  | s :: l => s ++ joinLines l

/-- Emitter failures: a JavaScript `TypeError` from accessing a member
of `undefined` (which aborts the run), or fuel exhaustion of the
embedding (never reached for sufficient fuel). -/
inductive EmitError where
  | nullAccess
  | outOfFuel
  deriving Repr, DecidableEq

/-- Modelled from the spec: `generateType` (the Type Expression
Renderer, `generateType.js`, not under `src/`) is specified only as a
pure function from a parsed type expression to a type string, so any
fixed pure function is a faithful instance; call sites may pass
`undefined`. -/
def generateType (rawType : Option DoctrineType) : String :=
  rawType.getD "any"

/-- `writeComments`: wrap the comment lines in a `/** ... */` block,
or write nothing when there are none. -/
def writeComments (w : Writer) (comments : List String) : Writer :=
  if comments.length > 0 then
    let w := w.writeLine "/**"
    let w := comments.foldl (fun w comment => w.writeLine (" * " ++ comment)) w
    w.writeLine " */"
  else w

/-- The static-property line of `writeClassNode` (`static
[readonly ]name: type;`); reading the attributes of a child without a
definition crashes. -/
def writeStaticPropertyLine (w : Writer) (propNode : Node) : Except EmitError Writer :=
  match propNode.definition with
  | none => .error .nullAccess
  | some d =>
    let attributes := d.attributes
    let isConst := attributes.type == some Kind.Const
    let rawType := if isConst then attributes.constType else attributes.propType
    let type := generateType rawType
    .ok (w.writeLine
      ("static " ++ (if isConst then "readonly " else "") ++ propNode.name ++ ": " ++ type ++ ";"))

/-- The instance/interface property line (`[readonly ]name: type;`). -/
def writePropertyLine (w : Writer) (propNode : Node) : Except EmitError Writer :=
  match propNode.definition with
  | none => .error .nullAccess
  | some d =>
    let attributes := d.attributes
    let isConst := attributes.type == some Kind.Const
    let rawType := if isConst then attributes.constType else attributes.propType
    let type := generateType rawType
    .ok (w.writeLine
      ((if isConst then "readonly " else "") ++ propNode.name ++ ": " ++ type ++ ";"))

/-- `writeFunctionNode`: comments, then one signature line; parameter
types default to `any`, the return type defaults to `void`, and the
constructor form drops name and return type.  Accessing
`node.definition.params` crashes when the definition is absent or has
no `params`. -/
def writeFunctionNode (w : Writer) (node : Node) (keyword : Option String)
    (isConstructor : Bool) : Except EmitError Writer :=
  match node.definition with
  | none => .error .nullAccess
  | some d =>
    let attributes := d.attributes
    let paramTypes := attributes.paramTypes.getD []
    let w := writeComments w attributes.comments
    match d.params with
    | none => .error .nullAccess
    | some ps =>
      let params := joinSep ", " (ps.map fun name =>
        let type := (List.lookup name paramTypes).getD "any"
        name ++ ": " ++ generateType (some type))
      let returnType := match attributes.returnType with
        | some r => generateType (some r)
        | none => "void"
      let name := if isConstructor then "constructor" else node.name
      .ok (w.writeLine
        ((match keyword with | some k => k ++ " " | none => "") ++
         name ++ "(" ++ params ++ ")" ++
         (if isConstructor then ";" else ": " ++ returnType ++ ";")))

/-- The body of `writeTypedefNode`'s property loop: optional leading
comment (when the prop has a description), then `name: type;`. -/
def writeTypedefPropLine (w : Writer) (prop : PropInfo) : Writer :=
  let type := generateType (some prop.type)
  let w := match prop.description with
    | some pd => if pd ≠ "" then writeComments w [pd] else w
    | none => w
  w.writeLine (prop.name ++ ": " ++ type ++ ";")

/-- `writeTypedefNode`: a props-carrying typedef becomes an interface
block, otherwise a single type-alias line. -/
def writeTypedefNode (w : Writer) (node : Node) : Except EmitError Writer :=
  match node.definition with
  | none => .error .nullAccess
  | some d =>
    let attributes := d.attributes
    let w := writeComments w attributes.comments
    match attributes.props with
    | some props =>
      let w := w.writeLine ("interface " ++ node.name ++ " \x7b")
      let w := w.increaseLevel
      let w := props.foldl writeTypedefPropLine w
      let w := w.decreaseLevel
      .ok (w.writeLine "\x7d")
    | none =>
      let type := generateType attributes.typedefType
      .ok (w.writeLine ("type " ++ node.name ++ " = " ++ type ++ ";"))

/-- `writeEnumNode`: the `console.assert` that the definition is
object-kind only logs; the loop over `definition.props` then crashes
when the definition is not an object (no `props`). -/
def writeEnumNode (w : Writer) (node : Node) : Except EmitError Writer :=
  match node.definition with
  | none => .error .nullAccess
  | some definition =>
    let w := writeComments w definition.attributes.comments
    let w := w.writeLine ("enum " ++ node.name ++ " \x7b")
    let w := w.increaseLevel
    match definition.props with
    | none => .error .nullAccess
    | some props =>
      let w := props.foldl (fun w prop => w.writeLine (prop ++ ",")) w
      let w := w.decreaseLevel
      .ok (w.writeLine "\x7d")

/-- The kind resolution `attributes.type || definition.type` used by
`writeNode` and by the static-member gathering of `writeClassNode`. -/
def resolvedType (d : Definition) : Kind :=
  d.attributes.type.getD d.type

/-- The static-member gathering loop of `writeClassNode` (lines
68-92): non-prototype children are partitioned by their resolved kind
into static data, static functions and others; a child without a
definition crashes when its attributes are read. -/
def gatherStaticMembers (children : List Node) :
    Except EmitError (List Node × List Node × List Node) :=
  children.foldlM
    (fun acc child =>
      if child.name == "prototype" then .ok acc
      else
        match child.definition with
        | none => .error .nullAccess
        | some d =>
          let (staticProperties, staticMethods, others) := acc
          match resolvedType d with
          | Kind.Const => .ok (staticProperties ++ [child], staticMethods, others)
          | Kind.Property => .ok (staticProperties ++ [child], staticMethods, others)
          | Kind.Function => .ok (staticProperties, staticMethods ++ [child], others)
          | _ => .ok (staticProperties, staticMethods, others ++ [child]))
    ([], [], [])

/-- The prototype-member gathering loop shared by `writeClassNode`
(lines 95-118) and `writeInterfaceNode` (lines 200-223).  The loop
computes the resolved kind into a local (used only for the error
message) but the `switch` dispatches on `child.definition.type`, the
structural kind; unexpected kinds are logged and dropped
(non-fatal). -/
def gatherPrototypeMembers (children : List Node) :
    Except EmitError (List Node × List Node) :=
  children.foldlM
    (fun acc child =>
      match child.definition with
      | none => .error .nullAccess
      | some d =>
        let (properties, methods) := acc
        match d.type with
        | Kind.Const => .ok (properties ++ [child], methods)
        | Kind.Property => .ok (properties ++ [child], methods)
        | Kind.Function => .ok (properties, methods ++ [child])
        | _ => .ok (properties, methods))
    ([], [])

/-- Line 65: `node.children.get('prototype') || { children: new
Map() }` — the class writer's prototype default. -/
def prototypeChildrenOf (node : Node) : List (String × Node) :=
  match List.lookup "prototype" node.children with
  | some p => p.children
  | none => []

/-- Lines 121-127: the class header with optional
`extends`/`implements` clauses from the attributes. -/
def classDeclarationOf (node : Node) (ndef : Definition) : String :=
  node.name ++
  (match ndef.attributes.«extends» with | some e => " extends " ++ e | none => "") ++
  (match ndef.attributes.implements with | some i => " implements " ++ i | none => "")

/-- `writeClassNode`, parametrized by the recursive `writeNodes` used
for the trailing auxiliary namespace block (tied in `writeNode`
below).  A missing `prototype` child defaults to an empty map; the
class header takes `extends`/`implements` from the attributes; members
are emitted as static data, static methods, instance data, the
constructor (from the class node's own definition), instance methods;
leftover non-prototype children go into a trailing
`namespace Name { ... }` block. -/
def writeClassNodeAux (writeNodesF : Writer → List Node → Except EmitError Writer)
    (w : Writer) (node : Node) : Except EmitError Writer :=
  match gatherStaticMembers (node.children.map Prod.snd) with
  | .error e => .error e
  | .ok (staticProperties, staticMethods, others) =>
    match gatherPrototypeMembers ((prototypeChildrenOf node).map Prod.snd) with
    | .error e => .error e
    | .ok (properties, methods) =>
      match node.definition with
      | none => .error .nullAccess
      | some ndef =>
        let w := w.writeLine ("class " ++ classDeclarationOf node ndef ++ " \x7b")
        let w := w.increaseLevel
        match staticProperties.foldlM writeStaticPropertyLine w with
        | .error e => .error e
        | .ok w =>
          match staticMethods.foldlM (fun w methodNode =>
              writeFunctionNode w methodNode (some "static") false) w with
          | .error e => .error e
          | .ok w =>
            match properties.foldlM writePropertyLine w with
            | .error e => .error e
            | .ok w =>
              match writeFunctionNode w node none true with
              | .error e => .error e
              | .ok w =>
                match methods.foldlM (fun w methodNode =>
                    writeFunctionNode w methodNode none false) w with
                | .error e => .error e
                | .ok w =>
                  let w := w.decreaseLevel
                  let w := w.writeLine "\x7d"
                  if others.length > 0 then
                    let w := w.writeLine ("namespace " ++ node.name ++ " \x7b")
                    let w := w.increaseLevel
                    match writeNodesF w others with
                    | .error e => .error e
                    | .ok w => .ok (w.decreaseLevel.writeLine "\x7d")
                  else
                    .ok w

/-- Lines 227-231: the interface header, with an `extends` clause when
the attributes carry a base interface. -/
def interfaceHeaderLine (w : Writer) (name : String) (baseInterface : Option DoctrineType) :
    Writer :=
  match baseInterface with
  | some b => w.writeLine ("interface " ++ name ++ " extends " ++ b ++ " \x7b")
  | none => w.writeLine ("interface " ++ name ++ " \x7b")

/-- `writeInterfaceNode`, parametrized like `writeClassNodeAux`.
Unlike the class writer it reads `prototype.children` without a
default, so a missing `prototype` child crashes; all non-prototype
children become `others` unconditionally. -/
def writeInterfaceNodeAux (writeNodesF : Writer → List Node → Except EmitError Writer)
    (w : Writer) (node : Node) : Except EmitError Writer :=
  let prototypeOpt := List.lookup "prototype" node.children
  match node.definition with
  | none => .error .nullAccess
  | some ndef =>
    let attributes := ndef.attributes
    let baseInterface := attributes.«extends»
    let others := (node.children.map Prod.snd).filter (fun child => !(child.name == "prototype"))
    match prototypeOpt with
    | none => .error .nullAccess
    | some prototype =>
      match gatherPrototypeMembers (prototype.children.map Prod.snd) with
      | .error e => .error e
      | .ok (properties, methods) =>
        let w := writeComments w attributes.comments
        let w := interfaceHeaderLine w node.name baseInterface
        let w := w.increaseLevel
        match properties.foldlM writePropertyLine w with
        | .error e => .error e
        | .ok w =>
          match methods.foldlM (fun w methodNode =>
              writeFunctionNode w methodNode none false) w with
          | .error e => .error e
          | .ok w =>
            let w := w.decreaseLevel
            let w := w.writeLine "\x7d"
            if others.length > 0 then
              let w := w.writeLine ("namespace " ++ node.name ++ " \x7b")
              let w := w.increaseLevel
              match writeNodesF w others with
              | .error e => .error e
              | .ok w => .ok (w.decreaseLevel.writeLine "\x7d")
            else
              .ok w

/-- Lines 356-361: the namespace header — top-level namespaces are
marked ambient (`declare namespace`). -/
def namespaceHeaderLine (w : Writer) (name : String) : Writer :=
  if w.level == 0 then
    w.writeLine ("declare namespace " ++ name ++ " \x7b")
  else
    w.writeLine ("namespace " ++ name ++ " \x7b")

/-- `writeNode`: namespace emission for definition-less nodes
(ambient `declare namespace` at the top level), otherwise dispatch on
the resolved kind; unexpected kinds are logged and skipped
(non-fatal).  The fuel argument makes the tree recursion structural;
`root` is threaded unchanged exactly as in the source. -/
def writeNode : Nat → NodeMap → Writer → Node → Except EmitError Writer
  | 0, _, _, _ => .error .outOfFuel
  | fuel + 1, root, w, node =>
    match node.definition with
    | none =>
      let w := namespaceHeaderLine w node.name
      let w := w.increaseLevel
      match (node.children.map Prod.snd).foldlM (writeNode fuel root) w with
      | .error e => .error e
      | .ok w => .ok (w.decreaseLevel.writeLine "\x7d")
    | some definition =>
      let attributes := definition.attributes
      match attributes.type.getD definition.type with
      | Kind.Class =>
        writeClassNodeAux (fun w ns => ns.foldlM (writeNode fuel root) w) w node
      | Kind.Interface =>
        writeInterfaceNodeAux (fun w ns => ns.foldlM (writeNode fuel root) w) w node
      | Kind.Typedef => writeTypedefNode w node
      | Kind.Enum => writeEnumNode w node
      | Kind.Const =>
        let w := writeComments w attributes.comments
        let constType := generateType attributes.constType
        .ok (w.writeLine ("const " ++ node.name ++ ": " ++ constType ++ ";"))
      | Kind.Function => writeFunctionNode w node (some "function") false
      | _ => .ok w

/-- `writeNodes`: emit a sequence of nodes in order. -/
def writeNodes (fuel : Nat) (root : NodeMap) (w : Writer) (nodes : List Node) :
    Except EmitError Writer :=
  nodes.foldlM (writeNode fuel root) w

/-- `writeClassNode` with its recursion tied to `writeNodes`. -/
def writeClassNode (fuel : Nat) (root : NodeMap) (w : Writer) (node : Node) :
    Except EmitError Writer :=
  writeClassNodeAux (fun w ns => writeNodes fuel root w ns) w node

/-- `writeInterfaceNode` with its recursion tied to `writeNodes`. -/
def writeInterfaceNode (fuel : Nat) (root : NodeMap) (w : Writer) (node : Node) :
    Except EmitError Writer :=
  writeInterfaceNodeAux (fun w ns => writeNodes fuel root w ns) w node

/-- `generateTypeDefinitions`: run the emitter over the root map with
a fresh string writer and return the buffer. -/
def generateTypeDefinitions (fuel : Nat) (definitionRoot : NodeMap) : Except EmitError String :=
  match writeNodes fuel definitionRoot ⟨0, ""⟩ (definitionRoot.map Prod.snd) with
  | .error e => .error e
  | .ok w => .ok w.buffer

/-! ## Helper lemmas -/

theorem bindOk {ε α β : Type} (a : α) (f : α → Except ε β) :
    (Except.ok a >>= f) = f a := rfl

theorem bindErr {ε α β : Type} (e : ε) (f : α → Except ε β) :
    ((Except.error e : Except ε α) >>= f) = Except.error e := rfl

theorem lookupAppendRight {l : NodeMap} {k : String} (h : List.lookup k l = none) (v : Node) :
    List.lookup k (l ++ [(k, v)]) = some v := by
  induction l with
  | nil => simp [List.lookup]
  | cons p t ih =>
    obtain ⟨pk, pv⟩ := p
    by_cases hk : k = pk
    · simp [List.lookup, hk] at h
    · have hbeq : (k == pk) = false := beq_eq_false_iff_ne.mpr hk
      simp only [List.lookup, hbeq] at h
      simp only [List.cons_append, List.lookup, hbeq]
      exact ih h

theorem getOrCreateNodeSndLookup (nodes : NodeMap) (name : String) :
    List.lookup name (getOrCreateNode nodes name).2 = some (getOrCreateNode nodes name).1 := by
  cases h : List.lookup name nodes with
  | some node => simp [getOrCreateNode, h]
  | none => simp [getOrCreateNode, h, lookupAppendRight h]

theorem getOrCreateNodeIdem (nodes : NodeMap) (name : String) :
    getOrCreateNode (getOrCreateNode nodes name).2 name = getOrCreateNode nodes name := by
  cases h : List.lookup name nodes with
  | some node => simp [getOrCreateNode, h]
  | none => simp [getOrCreateNode, h, lookupAppendRight h]

theorem setNodeCons (pk : String) (pv : Node) (t : NodeMap) (k : String) (v : Node) :
    setNode ((pk, pv) :: t) k v = (if pk = k then (k, v) else (pk, pv)) :: setNode t k v := by
  simp [setNode]

theorem lookupSetNodeSelf {m : NodeMap} {k : String} {v₀ : Node}
    (h : List.lookup k m = some v₀) (v : Node) :
    List.lookup k (setNode m k v) = some v := by
  induction m with
  | nil => simp [List.lookup] at h
  | cons p t ih =>
    obtain ⟨pk, pv⟩ := p
    by_cases hk : pk = k
    · subst hk
      rw [setNodeCons, if_pos rfl]
      simp [List.lookup]
    · have hbeq : (k == pk) = false := beq_eq_false_iff_ne.mpr (fun he => hk he.symm)
      rw [setNodeCons, if_neg hk]
      simp only [List.lookup, hbeq] at h ⊢
      exact ih h

theorem setNodeSetNode (m : NodeMap) (k : String) (v v' : Node) :
    setNode (setNode m k v) k v' = setNode m k v' := by
  unfold setNode
  rw [List.map_map]
  apply List.map_congr_left
  intro p _
  by_cases hk : p.1 = k
  · simp [hk]
  · simp [hk]

/-! ## Claim theorems -/

/-- C2: the `parseBody` post-filter removes exactly the definitions
classified `@const` without a const type, except class-kind
definitions, which always survive; `@const` with an explicit type is
always kept. -/
theorem postFilter_const_without_type :
    ∀ (definitions : List Definition) (d : Definition),
      d ∈ parseBodyFilter definitions ↔
        d ∈ definitions ∧
          (d.type = Kind.Class ∨
            ¬(d.attributes.type = some Kind.Const ∧ d.attributes.constType = none)) := by
  intro definitions d
  simp only [parseBodyFilter, List.mem_filter, Bool.or_eq_true, beq_iff_eq, bne_iff_ne, ne_eq]
  tauto

/-- The tag sequence `@param x {string}`, `@param y {number}`,
`@return {boolean}` of C3, none of the tags carrying a description. -/
def tagFoldComment : Comment :=
  { type := CommentKind.Block,
    value := { description := "",
               tags := [{ title := "param", name := some "x", type := some "string" },
                        { title := "param", name := some "y", type := some "number" },
                        { title := "return", type := some "boolean" }] } }

/-- C3 (counterexample): on the claim's tag sequence the resulting
`comments` sequence is empty — in particular it does not contain two
`@param` lines and one `@returnType` line — because the interpreter
only pushes those lines for tags that carry a description. -/
theorem tagFold_comment_lines_refuted :
    ¬ ∃ (a : Attributes), parseBlockComment tagFoldComment = Except.ok a ∧ a.comments ≠ [] := by
  rintro ⟨a, ha, hne⟩
  have h : parseBlockComment tagFoldComment = Except.ok
      { description := "", comments := [], type := some Kind.Function,
        returnType := some "boolean",
        paramTypes := some [("x", "string"), ("y", "number")] } := rfl
  rw [h] at ha
  cases ha
  exact hne rfl

/-- C3 (amended): the fold produces `paramTypes = {x: string,
y: number}`, `type = Function`, `returnType = boolean`, and an empty
`comments` sequence, since `@param`/`@returnType` comment lines are
recorded only for tags that have a description. -/
theorem tagFold_deterministic :
    ∃ (a : Attributes), parseBlockComment tagFoldComment = Except.ok a ∧
      a.paramTypes = some [("x", "string"), ("y", "number")] ∧
      a.type = some Kind.Function ∧
      a.returnType = some "boolean" ∧
      a.comments = [] :=
  ⟨_, rfl, rfl, rfl, rfl, rfl⟩

/-- C6: inserting path `[A, B, C]` into an empty root places the
terminal node at `root[A].children[B].children[C]`, and the
intermediate nodes `A` and `A.B` are created with no definition. -/
theorem tree_path_roundtrip :
    ∀ (A B C : String),
      ∃ (terminal : Node) (root' : NodeMap),
        getOrCreateNodeAtPath ([] : NodeMap) [A, B, C] = some (terminal, root') ∧
        terminal.definition = none ∧
        ∃ (nA nB : Node),
          List.lookup A root' = some nA ∧ nA.definition = none ∧
          List.lookup B nA.children = some nB ∧ nB.definition = none ∧
          List.lookup C nB.children = some terminal := by
  intro A B C
  refine ⟨Node.mk C none [],
    [(A, Node.mk A none [(B, Node.mk B none [(C, Node.mk C none [])])])], ?_, rfl,
    Node.mk A none [(B, Node.mk B none [(C, Node.mk C none [])])],
    Node.mk B none [(C, Node.mk C none [])], ?_, rfl, ?_, rfl, ?_⟩
  · simp [getOrCreateNodeAtPath, getOrCreateNode, setNode, List.lookup, Node.children,
      Node.name, Node.definition]
  · simp [List.lookup]
  · simp [Node.children, List.lookup]
  · simp [Node.children, List.lookup]

/-- C7: with several leading comments only the one closest to the
statement (the last) is interpreted and all earlier ones are
discarded; with no leading comments the result is the empty record
(empty description, empty comments). -/
theorem leading_comments_closest_only :
    (parseLeadingComments none = Except.ok { comments := [], description := "" }) ∧
    (∀ (earlier : List Comment) (closest : Comment),
      parseLeadingComments (some (earlier ++ [closest])) = parseBlockComment closest) := by
  refine ⟨rfl, ?_⟩
  intro earlier closest
  simp [parseLeadingComments, List.getLast?_concat]

/-- A bare prototype member declaration (`Foo.prototype.m;`, a
Property definition) documented as a function (`@return` sets
`attributes.type = Function`): its resolved kind is Function. -/
def protoMethodStub : Definition :=
  Definition.Property ["Foo", "prototype", "m"]
    { type := some Kind.Function, returnType := some "boolean" }

/-- The tree node holding `protoMethodStub` under a prototype. -/
def protoMethodStubNode : Node :=
  Node.mk "m" (some protoMethodStub) []

/-- C1: the prototype-member partition dispatches on the structural
kind (`child.definition.type`), not on the resolved kind
(`attributes.type` when present): a prototype child whose resolved
kind is Function but whose structural kind is Property lands in the
instance-data partition, not the instance-method partition.  The loop
computes the resolved kind but uses it only in its error message. -/
theorem prototype_partition_uses_structural_kind :
    resolvedType protoMethodStub = Kind.Function ∧
    gatherPrototypeMembers [protoMethodStubNode] =
      Except.ok ([protoMethodStubNode], []) :=
  ⟨rfl, rfl⟩

/-- C4: emitting an enum node whose definition is not Object-kind is a
fatal error: `writeEnumNode` crashes (iterating `definition.props`,
which only object definitions carry), and the error propagates out of
`writeNode`'s dispatch, aborting the run instead of producing degraded
output. -/
theorem enum_non_object_fatal :
    (∀ (w : Writer) (n : Node) (d : Definition),
        n.definition = some d → d.type ≠ Kind.Object →
        writeEnumNode w n = Except.error EmitError.nullAccess) ∧
    (∀ (fuel : Nat) (root : NodeMap) (w : Writer) (n : Node) (d : Definition),
        n.definition = some d → resolvedType d = Kind.Enum → d.type ≠ Kind.Object →
        writeNode (fuel + 1) root w n = Except.error EmitError.nullAccess) := by
  have h₁ : ∀ (w : Writer) (n : Node) (d : Definition),
      n.definition = some d → d.type ≠ Kind.Object →
      writeEnumNode w n = Except.error EmitError.nullAccess := by
    intro w n d hdef hobj
    have hprops : d.props = none := by
      cases d with
      | Object _ _ _ => exact absurd rfl hobj
      | Function _ _ _ _ _ _ _ => rfl
      | Class _ _ _ _ => rfl
      | Property _ _ => rfl
    simp only [writeEnumNode, hdef, hprops]
  refine ⟨h₁, ?_⟩
  intro fuel root w n d hdef hres hobj
  rw [resolvedType] at hres
  simp only [writeNode, hdef, hres]
  exact h₁ w n d hdef hobj

/-- A function definition wrongly annotated `@enum`. -/
def enumAnnotatedFunction : Definition :=
  Definition.Function ["Foo", "E"] [] none none none none { type := some Kind.Enum }

/-- Witness for C4 at a concrete input. -/
theorem enum_non_object_fatal_witness :
    writeNode 1 [] ⟨0, ""⟩ (Node.mk "E" (some enumAnnotatedFunction) []) =
      Except.error EmitError.nullAccess :=
  enum_non_object_fatal.2 0 [] ⟨0, ""⟩ (Node.mk "E" (some enumAnnotatedFunction) [])
    enumAnnotatedFunction rfl rfl (by decide)

/-- C9: `getOrCreateNode` is idempotent — a second call with the same
arguments returns the very node the first call produced or found and
leaves the map unchanged — and consequently `getOrCreateNodeAtPath` on
an already-materialized path returns the same terminal node and
creates no new nodes. -/
theorem getOrCreate_idempotent :
    (∀ (nodes : NodeMap) (name : String),
        getOrCreateNode (getOrCreateNode nodes name).2 name = getOrCreateNode nodes name) ∧
    (∀ (path : List String) (root : NodeMap) (terminal : Node) (root' : NodeMap),
        getOrCreateNodeAtPath root path = some (terminal, root') →
        getOrCreateNodeAtPath root' path = some (terminal, root')) := by
  refine ⟨getOrCreateNodeIdem, ?_⟩
  intro path
  induction path with
  | nil => intro root terminal root' h; exact absurd h (by simp [getOrCreateNodeAtPath])
  | cons part rest ih =>
    intro root terminal root' h
    cases rest with
    | nil =>
      rw [getOrCreateNodeAtPath] at h ⊢
      rw [Option.some_inj] at h
      rw [Option.some_inj]
      calc getOrCreateNode root' part
          = getOrCreateNode (getOrCreateNode root part).2 part := by rw [h]
        _ = getOrCreateNode root part := getOrCreateNodeIdem root part
        _ = (terminal, root') := h
    | cons part' rest' =>
      rw [getOrCreateNodeAtPath] at h
      rcases hgc : getOrCreateNode root part with ⟨node, root₁⟩
      rw [hgc] at h
      simp only at h
      cases hin : getOrCreateNodeAtPath node.children (part' :: rest') with
      | none => rw [hin] at h; simp at h
      | some pr =>
        rcases pr with ⟨t, children'⟩
        rw [hin] at h
        simp only [Option.some_inj, Prod.mk.injEq] at h
        obtain ⟨hterm, hroot'⟩ := h
        have hlook₁ : List.lookup part root₁ = some node := by
          have := getOrCreateNodeSndLookup root part
          rw [hgc] at this
          exact this
        have hlook' : List.lookup part root' =
            some (Node.mk node.name node.definition children') := by
          rw [← hroot']
          exact lookupSetNodeSelf hlook₁ _
        have hgc' : getOrCreateNode root' part =
            (Node.mk node.name node.definition children', root') := by
          rw [getOrCreateNode, hlook']
        rw [getOrCreateNodeAtPath, hgc']
        simp only
        have hin' : getOrCreateNodeAtPath
            (Node.mk node.name node.definition children').children (part' :: rest') =
            some (t, children') := by
          rw [Node.children]
          exact ih node.children t children' hin
        rw [hin']
        simp only [Option.some_inj, Prod.mk.injEq]
        constructor
        · exact hterm
        · simp only [Node.name, Node.definition]
          rw [← hroot']
          exact setNodeSetNode root₁ part _ _

/-- Witness for C9 at a concrete input: re-inserting the path `["A"]`
into the map the first insertion produced changes nothing. -/
theorem getOrCreate_idempotent_witness :
    getOrCreateNodeAtPath [("A", Node.mk "A" none [])] ["A"] =
      some (Node.mk "A" none [], [("A", Node.mk "A" none [])]) :=
  getOrCreate_idempotent.2 ["A"] [] (Node.mk "A" none []) [("A", Node.mk "A" none [])] rfl

/-- C8: every line the writers produce has the form
`indent ++ content ++ "\n"` with `indent` exactly the two-space string
repeated once per nesting level current when the line is written: the
string writer's buffer is the concatenation of the lines of the call
trace, the stream writer emits exactly those lines as its chunks, and
every traced line has that shape. -/
theorem writer_lines_shape :
    (∀ (w : Writer) (ops : List WriterOp),
        (runOps w ops).buffer = w.buffer ++ joinLines (traceLines w.level ops)) ∧
    (∀ (st : StreamWriterState) (ops : List WriterOp),
        (runStreamOps st ops).chunks = st.chunks ++ traceLines st.level ops) ∧
    (∀ (level : Int) (ops : List WriterOp) (l : String),
        l ∈ traceLines level ops →
        ∃ (k : Nat) (content : String), l = twoSpaces k ++ content ++ "\n") := by
  refine ⟨?_, ?_, ?_⟩
  · intro w ops
    induction ops generalizing w with
    | nil => simp [runOps, traceLines, joinLines]
    | cons op rest ih =>
      cases op with
      | writeLine s =>
        rw [runOps, traceLines, joinLines, ih]
        simp [Writer.writeLine, Writer.getIndentation, String.append_assoc]
      | increaseLevel =>
        rw [runOps, traceLines, ih]
        rfl
      | decreaseLevel =>
        rw [runOps, traceLines, ih]
        rfl
  · intro st ops
    induction ops generalizing st with
    | nil => simp [runStreamOps, traceLines]
    | cons op rest ih =>
      cases op with
      | writeLine s =>
        rw [runStreamOps, traceLines, ih]
        simp [StreamWriterState.writeLine]
      | increaseLevel =>
        rw [runStreamOps, traceLines, ih]
        rfl
      | decreaseLevel =>
        rw [runStreamOps, traceLines, ih]
        rfl
  · intro level ops
    induction ops generalizing level with
    | nil => intro l hl; simp [traceLines] at hl
    | cons op rest ih =>
      intro l hl
      cases op with
      | writeLine s =>
        rw [traceLines] at hl
        rcases List.mem_cons.mp hl with h | h
        · exact ⟨level.toNat, s, h⟩
        · exact ih level l h
      | increaseLevel => exact ih (level + 1) l (by rw [traceLines] at hl; exact hl)
      | decreaseLevel => exact ih (level - 1) l (by rw [traceLines] at hl; exact hl)

/-- Witness for C8 (third conjunct) at a concrete trace: the single
line written at level 1 has the required shape. -/
theorem writer_lines_shape_witness :
    ∃ (k : Nat) (content : String), "  x\n" = twoSpaces k ++ content ++ "\n" :=
  writer_lines_shape.2.2 1 [WriterOp.writeLine "x"] "  x\n" (by
    rw [traceLines]
    exact List.mem_singleton.mpr rfl)

/-! ## Level preservation of the emitter -/

theorem writeLine_level (w : Writer) (s : String) : (w.writeLine s).level = w.level := rfl

theorem increaseLevel_level (w : Writer) : w.increaseLevel.level = w.level + 1 := rfl

theorem decreaseLevel_level (w : Writer) : w.decreaseLevel.level = w.level - 1 := rfl

theorem foldlWriter_level {α : Type} {g : Writer → α → Writer}
    (hg : ∀ (w : Writer) (a : α), (g w a).level = w.level) :
    ∀ (l : List α) (w : Writer), (List.foldl g w l).level = w.level := by
  intro l
  induction l with
  | nil => intro w; rfl
  | cons a t ih => intro w; rw [List.foldl_cons, ih, hg]

theorem writeComments_level (w : Writer) (cs : List String) :
    (writeComments w cs).level = w.level := by
  rw [writeComments]
  split
  · exact (writeLine_level _ _).trans
      ((foldlWriter_level (fun w c => writeLine_level w (" * " ++ c)) cs _).trans
        (writeLine_level _ _))
  · rfl

theorem namespaceHeaderLine_level (w : Writer) (name : String) :
    (namespaceHeaderLine w name).level = w.level := by
  rw [namespaceHeaderLine]
  split <;> rfl

theorem interfaceHeaderLine_level (w : Writer) (name : String) (b : Option DoctrineType) :
    (interfaceHeaderLine w name b).level = w.level := by
  cases b <;> rfl

theorem writeTypedefPropLine_level (w : Writer) (prop : PropInfo) :
    (writeTypedefPropLine w prop).level = w.level := by
  rw [writeTypedefPropLine, writeLine_level]
  cases prop.description with
  | none => rfl
  | some pd =>
    by_cases hpd : pd ≠ ""
    · simp only [if_pos hpd]
      exact writeComments_level w [pd]
    · simp only [if_neg hpd]

theorem foldlM_level {α : Type} {f : Writer → α → Except EmitError Writer}
    (hf : ∀ (w : Writer) (a : α) (w' : Writer), f w a = Except.ok w' → w'.level = w.level) :
    ∀ (l : List α) (w w' : Writer), List.foldlM f w l = Except.ok w' → w'.level = w.level := by
  intro l
  induction l with
  | nil =>
    intro w w' h
    simp only [List.foldlM, pure, Except.pure] at h
    injection h with h
    rw [← h]
  | cons a t ih =>
    intro w w' h
    simp only [List.foldlM] at h
    cases hfa : f w a with
    | error e => rw [hfa, bindErr] at h; exact Except.noConfusion h
    | ok w₁ =>
      rw [hfa, bindOk] at h
      rw [ih w₁ w' h, hf w a w₁ hfa]

theorem writeStaticPropertyLine_level (w : Writer) (p : Node) (w' : Writer)
    (h : writeStaticPropertyLine w p = Except.ok w') : w'.level = w.level := by
  rw [writeStaticPropertyLine] at h
  cases hd : p.definition with
  | none => simp only [hd] at h; exact Except.noConfusion h
  | some d =>
    simp only [hd] at h
    injection h with h
    rw [← h, writeLine_level]

theorem writePropertyLine_level (w : Writer) (p : Node) (w' : Writer)
    (h : writePropertyLine w p = Except.ok w') : w'.level = w.level := by
  rw [writePropertyLine] at h
  cases hd : p.definition with
  | none => simp only [hd] at h; exact Except.noConfusion h
  | some d =>
    simp only [hd] at h
    injection h with h
    rw [← h, writeLine_level]

theorem writeFunctionNode_level (w : Writer) (n : Node) (kw : Option String) (b : Bool)
    (w' : Writer) (h : writeFunctionNode w n kw b = Except.ok w') : w'.level = w.level := by
  rw [writeFunctionNode.eq_def] at h
  cases hd : n.definition with
  | none => simp only [hd] at h; exact Except.noConfusion h
  | some d =>
    simp only [hd] at h
    cases hp : d.params with
    | none => simp only [hp] at h; exact Except.noConfusion h
    | some ps =>
      simp only [hp] at h
      injection h with h
      rw [← h, writeLine_level, writeComments_level]

theorem writeTypedefNode_level (w : Writer) (n : Node) (w' : Writer)
    (h : writeTypedefNode w n = Except.ok w') : w'.level = w.level := by
  rw [writeTypedefNode] at h
  cases hd : n.definition with
  | none => simp only [hd] at h; exact Except.noConfusion h
  | some d =>
    simp only [hd] at h
    cases hp : d.attributes.props with
    | none =>
      simp only [hp] at h
      injection h with h
      rw [← h, writeLine_level, writeComments_level]
    | some props =>
      simp only [hp] at h
      injection h with h
      rw [← h, writeLine_level, decreaseLevel_level,
        foldlWriter_level writeTypedefPropLine_level props, increaseLevel_level,
        writeLine_level, writeComments_level]
      omega

theorem writeEnumNode_level (w : Writer) (n : Node) (w' : Writer)
    (h : writeEnumNode w n = Except.ok w') : w'.level = w.level := by
  rw [writeEnumNode] at h
  cases hd : n.definition with
  | none => simp only [hd] at h; exact Except.noConfusion h
  | some d =>
    simp only [hd] at h
    cases hp : d.props with
    | none => simp only [hp] at h; exact Except.noConfusion h
    | some props =>
      simp only [hp] at h
      injection h with h
      rw [← h, writeLine_level, decreaseLevel_level,
        foldlWriter_level (fun w prop => writeLine_level w (prop ++ ",")) props,
        increaseLevel_level, writeLine_level, writeComments_level]
      omega

theorem writeClassNodeAux_level
    (writeNodesF : Writer → List Node → Except EmitError Writer)
    (hF : ∀ (w : Writer) (ns : List Node) (w' : Writer),
        writeNodesF w ns = Except.ok w' → w'.level = w.level)
    (w : Writer) (node : Node) (w' : Writer)
    (h : writeClassNodeAux writeNodesF w node = Except.ok w') : w'.level = w.level := by
  rw [writeClassNodeAux] at h
  cases hg1 : gatherStaticMembers (node.children.map Prod.snd) with
  | error e => simp only [hg1] at h; exact Except.noConfusion h
  | ok trip =>
    obtain ⟨staticProperties, staticMethods, others⟩ := trip
    simp only [hg1] at h
    cases hg2 : gatherPrototypeMembers ((prototypeChildrenOf node).map Prod.snd) with
    | error e => simp only [hg2] at h; exact Except.noConfusion h
    | ok pr =>
      obtain ⟨properties, methods⟩ := pr
      simp only [hg2] at h
      cases hdef : node.definition with
      | none => simp only [hdef] at h; exact Except.noConfusion h
      | some ndef =>
        simp only [hdef] at h
        cases hs1 : staticProperties.foldlM writeStaticPropertyLine
            ((w.writeLine ("class " ++ classDeclarationOf node ndef ++ " \x7b")).increaseLevel) with
        | error e => simp only [hs1] at h; exact Except.noConfusion h
        | ok w1 =>
          simp only [hs1] at h
          have l1 : w1.level = w.level + 1 :=
            foldlM_level writeStaticPropertyLine_level _ _ _ hs1
          cases hs2 : staticMethods.foldlM (fun w methodNode =>
              writeFunctionNode w methodNode (some "static") false) w1 with
          | error e => simp only [hs2] at h; exact Except.noConfusion h
          | ok w2 =>
            simp only [hs2] at h
            have l2 : w2.level = w1.level :=
              foldlM_level (fun w a w' h =>
                writeFunctionNode_level w a (some "static") false w' h) _ _ _ hs2
            cases hs3 : properties.foldlM writePropertyLine w2 with
            | error e => simp only [hs3] at h; exact Except.noConfusion h
            | ok w3 =>
              simp only [hs3] at h
              have l3 : w3.level = w2.level :=
                foldlM_level writePropertyLine_level _ _ _ hs3
              cases hs4 : writeFunctionNode w3 node none true with
              | error e => simp only [hs4] at h; exact Except.noConfusion h
              | ok w4 =>
                simp only [hs4] at h
                have l4 : w4.level = w3.level := writeFunctionNode_level _ _ _ _ _ hs4
                cases hs5 : methods.foldlM (fun w methodNode =>
                    writeFunctionNode w methodNode none false) w4 with
                | error e => simp only [hs5] at h; exact Except.noConfusion h
                | ok w5 =>
                  simp only [hs5] at h
                  have l5 : w5.level = w4.level :=
                    foldlM_level (fun w a w' h =>
                      writeFunctionNode_level w a none false w' h) _ _ _ hs5
                  by_cases ho : others.length > 0
                  · rw [if_pos ho] at h
                    cases hs6 : writeNodesF
                        (((w5.decreaseLevel.writeLine "\x7d").writeLine
                          ("namespace " ++ node.name ++ " \x7b")).increaseLevel) others with
                    | error e => simp only [hs6] at h; exact Except.noConfusion h
                    | ok w6 =>
                      simp only [hs6] at h
                      have l6 : w6.level = w5.level - 1 + 1 := by
                        have := hF _ _ _ hs6
                        rw [this, increaseLevel_level, writeLine_level, writeLine_level,
                          decreaseLevel_level]
                      injection h with h
                      rw [← h, writeLine_level, decreaseLevel_level]
                      omega
                  · rw [if_neg ho] at h
                    injection h with h
                    rw [← h, writeLine_level, decreaseLevel_level]
                    omega

theorem writeInterfaceNodeAux_level
    (writeNodesF : Writer → List Node → Except EmitError Writer)
    (hF : ∀ (w : Writer) (ns : List Node) (w' : Writer),
        writeNodesF w ns = Except.ok w' → w'.level = w.level)
    (w : Writer) (node : Node) (w' : Writer)
    (h : writeInterfaceNodeAux writeNodesF w node = Except.ok w') : w'.level = w.level := by
  rw [writeInterfaceNodeAux] at h
  cases hdef : node.definition with
  | none => simp only [hdef] at h; exact Except.noConfusion h
  | some ndef =>
    simp only [hdef] at h
    cases hproto : List.lookup "prototype" node.children with
    | none => simp only [hproto] at h; exact Except.noConfusion h
    | some prototype =>
      simp only [hproto] at h
      cases hg : gatherPrototypeMembers (prototype.children.map Prod.snd) with
      | error e => simp only [hg] at h; exact Except.noConfusion h
      | ok pr =>
        obtain ⟨properties, methods⟩ := pr
        simp only [hg] at h
        cases hs1 : properties.foldlM writePropertyLine
            ((interfaceHeaderLine (writeComments w ndef.attributes.comments) node.name
              ndef.attributes.«extends»).increaseLevel) with
        | error e => simp only [hs1] at h; exact Except.noConfusion h
        | ok w1 =>
          simp only [hs1] at h
          have l1 : w1.level = w.level + 1 := by
            have := foldlM_level writePropertyLine_level _ _ _ hs1
            rw [this, increaseLevel_level, interfaceHeaderLine_level, writeComments_level]
          cases hs2 : methods.foldlM (fun w methodNode =>
              writeFunctionNode w methodNode none false) w1 with
          | error e => simp only [hs2] at h; exact Except.noConfusion h
          | ok w2 =>
            simp only [hs2] at h
            have l2 : w2.level = w1.level :=
              foldlM_level (fun w a w' h =>
                writeFunctionNode_level w a none false w' h) _ _ _ hs2
            by_cases ho : ((node.children.map Prod.snd).filter
                (fun child => !(child.name == "prototype"))).length > 0
            · rw [if_pos ho] at h
              cases hs3 : writeNodesF
                  (((w2.decreaseLevel.writeLine "\x7d").writeLine
                    ("namespace " ++ node.name ++ " \x7b")).increaseLevel)
                  ((node.children.map Prod.snd).filter
                    (fun child => !(child.name == "prototype"))) with
              | error e => simp only [hs3] at h; exact Except.noConfusion h
              | ok w3 =>
                simp only [hs3] at h
                have l3 : w3.level = w2.level - 1 + 1 := by
                  have := hF _ _ _ hs3
                  rw [this, increaseLevel_level, writeLine_level, writeLine_level,
                    decreaseLevel_level]
                injection h with h
                rw [← h, writeLine_level, decreaseLevel_level]
                omega
            · rw [if_neg ho] at h
              injection h with h
              rw [← h, writeLine_level, decreaseLevel_level]
              omega

/-- C5: emitting any node leaves the writer's indentation level at its
value before the emission, for every successful run — in particular a
class with its auxiliary trailing namespace block restores the level,
so the next line is emitted at the same depth as the line preceding
the class. -/
theorem writeNode_preserves_level :
    ∀ (fuel : Nat) (root : NodeMap) (w : Writer) (n : Node) (w' : Writer),
      writeNode fuel root w n = Except.ok w' → w'.level = w.level := by
  intro fuel
  induction fuel with
  | zero =>
    intro root w n w' h
    simp only [writeNode] at h
    exact Except.noConfusion h
  | succ f ih =>
    intro root w n w' h
    simp only [writeNode] at h
    cases hdef : n.definition with
    | none =>
      simp only [hdef] at h
      cases hrec : (n.children.map Prod.snd).foldlM (writeNode f root)
          ((namespaceHeaderLine w n.name).increaseLevel) with
      | error e => simp only [hrec] at h; exact Except.noConfusion h
      | ok w1 =>
        simp only [hrec] at h
        have l1 : w1.level = w.level + 1 := by
          have := foldlM_level (fun w a w' h => ih root w a w' h) _ _ _ hrec
          rw [this, increaseLevel_level, namespaceHeaderLine_level]
        injection h with h
        rw [← h, writeLine_level, decreaseLevel_level]
        omega
    | some d =>
      simp only [hdef] at h
      cases hk : d.attributes.type.getD d.type with
      | Class =>
        simp only [hk] at h
        exact writeClassNodeAux_level _
          (fun w ns w' hh => foldlM_level (fun w a w' h => ih root w a w' h) _ _ _ hh)
          w n w' h
      | Interface =>
        simp only [hk] at h
        exact writeInterfaceNodeAux_level _
          (fun w ns w' hh => foldlM_level (fun w a w' h => ih root w a w' h) _ _ _ hh)
          w n w' h
      | Typedef =>
        simp only [hk] at h
        exact writeTypedefNode_level _ _ _ h
      | Enum =>
        simp only [hk] at h
        exact writeEnumNode_level _ _ _ h
      | Const =>
        simp only [hk] at h
        injection h with h
        rw [← h, writeLine_level, writeComments_level]
      | Function =>
        simp only [hk] at h
        exact writeFunctionNode_level _ _ _ _ _ h
      | Property =>
        simp only [hk] at h
        injection h with h
        rw [← h]
      | Object =>
        simp only [hk] at h
        injection h with h
        rw [← h]

/-- A constructor-only class (a Function definition annotated
`@constructor`) with no children at all. -/
def levelWitnessClassDef : Definition :=
  Definition.Function ["Foo"] [] none none none none { type := some Kind.Class }

/-- An enum member that the class writer sends to the auxiliary
trailing namespace block. -/
def levelWitnessEnumDef : Definition :=
  Definition.Object ["Foo", "E"] ["A"] { type := some Kind.Enum }

/-- A class node with one non-member child, so emission produces the
class block followed by the auxiliary `namespace Foo { ... }` block. -/
def levelWitnessNode : Node :=
  Node.mk "Foo" (some levelWitnessClassDef) [("E", Node.mk "E" (some levelWitnessEnumDef) [])]

/-- Witness for C5: emitting a class together with its trailing
auxiliary namespace block returns the indentation counter to its
pre-class value. -/
theorem writeNode_preserves_level_witness :
    ∃ (w' : Writer),
      writeNode 2 [] ⟨0, ""⟩ levelWitnessNode = Except.ok w' ∧ w'.level = 0 :=
  ⟨⟨0, "class Foo \x7b\n  constructor();\n\x7d\nnamespace Foo \x7b\n  enum E \x7b\n    A,\n  \x7d\n\x7d\n"⟩,
    rfl,
    writeNode_preserves_level 2 [] ⟨0, ""⟩ levelWitnessNode
      ⟨0, "class Foo \x7b\n  constructor();\n\x7d\nnamespace Foo \x7b\n  enum E \x7b\n    A,\n  \x7d\n\x7d\n"⟩
      rfl⟩

/-- C10: emitting an interface node with no `prototype` child fails
(the emitter reads `prototype.children` with no default), while
emitting a class node with no `prototype` child succeeds — the class
emitter substitutes an empty prototype, a class may consist of only a
constructor. -/
theorem interface_requires_prototype_class_not :
    (∀ (fuel : Nat) (root : NodeMap) (w : Writer) (n : Node),
        List.lookup "prototype" n.children = none →
        writeInterfaceNode fuel root w n = Except.error EmitError.nullAccess) ∧
    (∀ (fuel : Nat) (root : NodeMap) (w : Writer) (name : String)
        (identifier params : List String) (attrs : Attributes),
        ∃ (w' : Writer),
          writeClassNode fuel root w
            (Node.mk name
              (some (Definition.Function identifier params none none none none attrs)) []) =
            Except.ok w') := by
  constructor
  · intro fuel root w n hproto
    rw [writeInterfaceNode, writeInterfaceNodeAux]
    cases hdef : n.definition with
    | none => simp only [hproto, hdef]
    | some nd => simp only [hproto, hdef]
  · intro fuel root w name identifier params attrs
    exact ⟨_, rfl⟩

/-- Witness for C10 at a concrete input: an interface node without a
`prototype` child crashes the emitter. -/
theorem interface_requires_prototype_witness :
    writeInterfaceNode 3 [] ⟨0, ""⟩ (Node.mk "IFoo" none []) =
      Except.error EmitError.nullAccess :=
  interface_requires_prototype_class_not.1 3 [] ⟨0, ""⟩ (Node.mk "IFoo" none []) rfl

end ShakaDts
